import Mathlib

/-!
Verification of the scoutfs metadata block layer and cluster server core
against its specification.  The definitions below are a shallow embedding
of the C code in src/kmod/src/block.c and src/kmod/src/server.c: pure
functions mirror the C functions, explicit state records mirror the
in-memory super block and server state, and machine integers are
modelled as Nat with explicit reduction modulo 2^64 (or 2^32) where the
C code can wrap.  Code of the repository that lives outside these files
(the buddy allocator, crc helper, btree container, net core) is modelled
from the specification and marked as such.
-/

/-- Numeric value of 2^64, the modulus of u64 arithmetic. -/
def U64MOD : Nat := 18446744073709551616

/-- Numeric value of U64_MAX = 2^64 - 1. -/
def U64MAX : Nat := 18446744073709551615

/-- Numeric value of 2^32, the modulus of unsigned int arithmetic. -/
def U32MOD : Nat := 4294967296

/-- Increment of an unsigned int counter (wraps at 2^32). -/
def u32inc (n : Nat) : Nat := (n + 1) % U32MOD

/-- Decrement of an unsigned int counter (wraps below zero, as in C). -/
def u32dec (n : Nat) : Nat := (n + (U32MOD - 1)) % U32MOD

/-! ## Block layer (src/kmod/src/block.c) -/

/-- On-disk metadata block header, struct scoutfs_block_header of format.h:
crc, fsid, blkno, seq (all modelled as Nat standing for the u32/u64 values). -/
structure ScoutfsBlockHeader where
  crc : Nat
  fsid : Nat
  blkno : Nat
  seq : Nat
deriving DecidableEq

/-- A cached 4 KiB metadata block: its header followed by the rest of the
block payload, modelled as an opaque list of bytes. -/
structure ScoutfsBlock where
  hdr : ScoutfsBlockHeader
  body : List Nat
deriving DecidableEq

/-- A block reference, struct scoutfs_block_ref: blkno and seq. -/
structure ScoutfsBlockRef where
  blkno : Nat
  seq : Nat
deriving DecidableEq

instance {ε α : Type} [DecidableEq ε] [DecidableEq α] (x y : Except ε α) : Decidable (x = y) :=
  match x, y with
  | Except.ok a, Except.ok b => decidable_of_iff (a = b) (by simp)
  | Except.ok _, Except.error _ => isFalse (fun hc => Except.noConfusion hc)
  | Except.error _, Except.ok _ => isFalse (fun hc => Except.noConfusion hc)
  | Except.error e, Except.error f => decidable_of_iff (e = f) (by simp)

/-- Modelled from the spec: scoutfs_crc_block (crc.c is not under src/)
computes a CRC32C over the block excluding the crc field itself.  We model
it as an arbitrary function of every block datum except the stored crc. -/
structure CrcModel where
  f : Nat → Nat → Nat → List Nat → Nat

/-- The crc of a block under a crc model: a function of the header fields
other than crc, and of the body. -/
def crcBlockOf (m : CrcModel) (b : ScoutfsBlock) : Nat :=
  m.f b.hdr.fsid b.hdr.blkno b.hdr.seq b.body

/-- State of the block layer visible to block.c: the in-memory super block
header (sbi->super.hdr, holding the fsid and the current dirty seq), the
buffer-cache contents by blkno, the per-buffer verified bits, the dirty
rbtree as an ascending list of blknos, the write-error latch
sbi->block_write_err, the crc model, and the spec-modelled buddy
allocator (a choice function for alloc-same plus the avail and freed
pools). -/
structure BlockState where
  superHdr : ScoutfsBlockHeader
  blocks : Nat → Option ScoutfsBlock
  verified : Nat → Bool
  dirtyTree : List Nat
  blockWriteErr : Int
  crcM : CrcModel
  allocSame : Nat → Option Nat
  freedPool : List (Nat × Nat)
  availPool : List Nat

/-- verify_block_header of block.c: in order, the stored crc must equal the
computed crc, then (only when the super block has a nonzero fsid) the
stored fsid must equal the super fsid, then the stored blkno must equal
the disk address the block was read from; first failing check yields
-EIO (-5), otherwise 0. -/
def verify_block_header (st : BlockState) (b : ScoutfsBlock) (diskBlkno : Nat) : Int :=
  if b.hdr.crc ≠ crcBlockOf st.crcM b then -5
  else if st.superHdr.fsid ≠ 0 ∧ b.hdr.fsid ≠ st.superHdr.fsid then -5
  else if b.hdr.blkno ≠ diskBlkno then -5
  else 0

/-- scoutfs_block_read of block.c: fetch the block from the cache or disk
(sb_bread, a missing block is an I/O error), and on first use verify the
header, recording the verified bit on success; a verification failure
returns the error and leaves the block unverified. -/
def scoutfs_block_read (st : BlockState) (blkno : Nat) :
    Except Int ScoutfsBlock × BlockState :=
  match st.blocks blkno with
  | none => (Except.error (-5), st)
  | some b =>
    if st.verified blkno then (Except.ok b, st)
    else if verify_block_header st b blkno = 0 then
      (Except.ok b,
       { st with verified := fun n => if n = blkno then true else st.verified n })
    else (Except.error (verify_block_header st b blkno), st)

/-- The body of the submission loop of scoutfs_block_write_dirty together
with the completions of block_write_end_io: walk the dirty tree in
ascending blkno order, stamp each block crc (scoutfs_block_set_crc) and
submit it; a completed successful write erases the block from the dirty
tree, a failed write leaves it there and latches -EIO (-5) into
sbi->block_write_err.  Returns the updated cache, the remaining dirty
tree and the final value of block_write_err.  The io argument gives each
write completion status. -/
def write_dirty_loop (m : CrcModel) (ioOk : Nat → Bool) (blocks : Nat → Option ScoutfsBlock) :
    List Nat → ((Nat → Option ScoutfsBlock) × List Nat × Int)
  | [] => (blocks, [], 0)
  | bn :: rest =>
    let blocks1 : Nat → Option ScoutfsBlock := fun n =>
      if n = bn then
        match blocks bn with
        | some b => some { b with hdr := { b.hdr with crc := crcBlockOf m b } }
        | none => none
      else blocks n
    let out := write_dirty_loop m ioOk blocks1 rest
    if ioOk bn then (out.1, out.2.1, out.2.2)
    else (out.1, bn :: out.2.1, -5)

/-- scoutfs_block_write_dirty of block.c: clear block_write_err, submit all
dirty blocks in tree order and wait for the completions.  The function
returns ret, which only reflects submit_bh (which, as the code comments,
does not fail) - the -EIO recorded by block_write_end_io stays in
sbi->block_write_err and is never returned. -/
def scoutfs_block_write_dirty (st : BlockState) (ioOk : Nat → Bool) : BlockState × Int :=
  let out := write_dirty_loop st.crcM ioOk st.blocks st.dirtyTree
  ({ st with blocks := out.1, dirtyTree := out.2.1, blockWriteErr := out.2.2 }, 0)

/-- Ordered insertion into the ascending list of dirty blknos, mirroring
insert_bhp_rb walking the rbtree by b_blocknr. -/
def insertSorted (x : Nat) : List Nat → List Nat
  | [] => [x]
  | y :: ys => if x ≤ y then x :: y :: ys else y :: insertSorted x ys

/-- scoutfs_block_dirty of block.c: get the block at blkno (sb_getblk: the
cached block, or a fresh one with unspecified contents), track it in the
dirty tree if not already tracked (insert_bhp; memory allocation is
modelled as succeeding), then overwrite its header with the super block
header with blkno substituted (so seq becomes the current dirty seq), and
mark it uptodate and verified. -/
def scoutfs_block_dirty (st : BlockState) (blkno : Nat) : ScoutfsBlock × BlockState :=
  let b0 := match st.blocks blkno with
    | some b => b
    | none => ⟨⟨0, 0, 0, 0⟩, []⟩
  let dt := if blkno ∈ st.dirtyTree then st.dirtyTree else insertSorted blkno st.dirtyTree
  let b : ScoutfsBlock := { b0 with hdr := { st.superHdr with blkno := blkno } }
  (b, { st with
          blocks := fun n => if n = blkno then some b else st.blocks n,
          dirtyTree := dt,
          verified := fun n => if n = blkno then true else st.verified n })

/-- Modelled from the spec: scoutfs_buddy_free (buddy.c is not under src/).
Freeing a block whose seq equals the current dirty seq recycles it
directly back into avail; otherwise the block goes onto the current
freed pool, tagged with the seq it was freed under (spec 4.B).  Freeing
is modelled as always succeeding. -/
def scoutfs_buddy_free (st : BlockState) (seq blkno : Nat) : BlockState :=
  if seq = st.superHdr.seq then { st with availPool := blkno :: st.availPool }
  else { st with freedPool := (seq, blkno) :: st.freedPool }

/-- scoutfs_block_dirty_ref of block.c: read the referenced block; if the
read failed or the reference seq is the current dirty seq, return the
read result with the reference untouched.  Otherwise allocate a new
blkno near ref->blkno (scoutfs_buddy_alloc_same, modelled from the spec
by the allocSame choice function, none meaning allocation failure
-ENOSPC), obtain it dirty, free the old block under the old block
header seq and blkno, copy the old 4 KiB contents over the new block,
stamp the copy header with the new blkno and the current dirty seq, and
update the reference in place to the new blkno and seq. -/
def scoutfs_block_dirty_ref (st : BlockState) (ref : ScoutfsBlockRef) :
    Except Int ScoutfsBlock × BlockState × ScoutfsBlockRef :=
  let rd := scoutfs_block_read st ref.blkno
  match rd.1 with
  | Except.error e => (Except.error e, rd.2, ref)
  | Except.ok b =>
    if ref.seq = st.superHdr.seq then (Except.ok b, rd.2, ref)
    else
      match st.allocSame ref.blkno with
      | none => (Except.error (-28), rd.2, ref)
      | some blkno2 =>
        let st2 := (scoutfs_block_dirty rd.2 blkno2).2
        let st3 := scoutfs_buddy_free st2 b.hdr.seq b.hdr.blkno
        let copy : ScoutfsBlock :=
          ⟨{ b.hdr with blkno := blkno2, seq := st.superHdr.seq }, b.body⟩
        let st4 := { st3 with
                       blocks := fun n => if n = blkno2 then some copy else st3.blocks n }
        (Except.ok copy, st4, ⟨blkno2, st.superHdr.seq⟩)

/-! ## Trans-seq items and their server handlers (src/kmod/src/server.c) -/

/-- A trans_seqs btree item: key (seq, rid), no value. -/
structure TransSeqItem where
  seq : Nat
  rid : Nat
deriving DecidableEq

/-- Lexicographic order of trans_seq btree keys: by seq, then by rid. -/
def transSeqKeyLt (a b : TransSeqItem) : Prop :=
  a.seq < b.seq ∨ (a.seq = b.seq ∧ a.rid < b.rid)

instance (a b : TransSeqItem) : Decidable (transSeqKeyLt a b) := by
  unfold transSeqKeyLt; infer_instance

instance : DecidableRel transSeqKeyLt := fun a b => by
  unfold transSeqKeyLt; infer_instance

/-- The trans_seqs tree in btree iteration order: items ascending by key. -/
def transSeqSorted (l : List TransSeqItem) : Prop :=
  List.Pairwise transSeqKeyLt l

instance (l : List TransSeqItem) : Decidable (transSeqSorted l) := by
  unfold transSeqSorted; infer_instance

/-- The fields of the in-memory super block that the embedded handlers
touch: next_ino, next_trans_seq and the trans_seqs btree (kept as its
ascending item list). -/
structure SuperBlock where
  nextIno : Nat
  nextTransSeq : Nat
  transSeqs : List TransSeqItem
deriving DecidableEq

/-- remove_trans_seq_locked of server.c: iterate the trans_seqs items in
ascending key order from (0, 0) and delete every item whose rid field
equals the given rid (btree deletion is modelled as succeeding). -/
def remove_trans_seq_locked (rid : Nat) : List TransSeqItem → List TransSeqItem
  | [] => []
  | it :: rest =>
    if it.rid = rid then remove_trans_seq_locked rid rest
    else it :: remove_trans_seq_locked rid rest

/-- remove_trans_seq of server.c: take seq_rwsem and run
remove_trans_seq_locked; used by farewell and reclaim processing. -/
def remove_trans_seq (rid : Nat) (items : List TransSeqItem) : List TransSeqItem :=
  remove_trans_seq_locked rid items

/-- Modelled from the spec: scoutfs_btree_insert (btree.c is not under
src/) on the trans_seqs tree: insert the item at its key position in the
ordered map, failing with -EEXIST (-17) when an item with the same key is
already present. -/
def btree_insert_trans_seq (it : TransSeqItem) : List TransSeqItem → Except Int (List TransSeqItem)
  | [] => Except.ok [it]
  | x :: xs =>
    if x.seq = it.seq ∧ x.rid = it.rid then Except.error (-17)
    else if transSeqKeyLt it x then Except.ok (it :: x :: xs)
    else
      match btree_insert_trans_seq it xs with
      | Except.ok l => Except.ok (x :: l)
      | Except.error e => Except.error e

/-- Result of server_advance_seq: the mutated super block, the response
error and the response payload leseq. -/
structure AdvanceSeqOut where
  super : SuperBlock
  err : Int
  leseq : Nat
deriving DecidableEq

/-- server_advance_seq of server.c: a nonzero payload is answered -EINVAL
(-22) with payload 0.  Otherwise remove every trans_seq item of the
caller rid, read seq = next_trans_seq, add 1 to next_trans_seq in u64
arithmetic (le64_add_cpu), insert the (seq, rid) item, and apply the
commit; the response carries the commit result and leseq = seq (leseq
stays 0 if the insert failed).  The commit outcome is passed in as
commitRet. -/
def server_advance_seq (super : SuperBlock) (rid : Nat) (argLen : Nat) (commitRet : Int) :
    AdvanceSeqOut :=
  if argLen ≠ 0 then ⟨super, -22, 0⟩
  else
    let items := remove_trans_seq_locked rid super.transSeqs
    let s := super.nextTransSeq
    let next := (s + 1) % U64MOD
    match btree_insert_trans_seq ⟨s, rid⟩ items with
    | Except.ok items2 =>
      ⟨{ super with nextTransSeq := next, transSeqs := items2 }, commitRet, s⟩
    | Except.error e =>
      ⟨{ super with nextTransSeq := next, transSeqs := items }, e, 0⟩

/-- Result of server_get_last_seq: response error and payload. -/
structure GetLastSeqOut where
  err : Int
  lastSeq : Nat
deriving DecidableEq

/-- server_get_last_seq of server.c: a nonzero payload is answered -EINVAL
(-22) with payload 0.  Otherwise take the first trans_seqs item in key
order (the smallest), or next_trans_seq when the tree is empty, and
subtract 1 in u64 arithmetic (le64_add_cpu with -1ULL, which wraps at
zero). -/
def server_get_last_seq (super : SuperBlock) (argLen : Nat) : GetLastSeqOut :=
  if argLen ≠ 0 then ⟨-22, 0⟩
  else
    match super.transSeqs with
    | [] => ⟨0, (super.nextTransSeq + U64MAX) % U64MOD⟩
    | it :: _ => ⟨0, (it.seq + U64MAX) % U64MOD⟩

/-- Result of server_alloc_inodes: the mutated super block, the response
error, and the scoutfs_net_inode_alloc payload {ino, nr}. -/
structure AllocInodesOut where
  super : SuperBlock
  err : Int
  ino : Nat
  nr : Nat
deriving DecidableEq

/-- server_alloc_inodes of server.c: a payload that is not 8 bytes (one
__le64 count) is answered -EINVAL (-22).  Otherwise ino = next_ino,
nr = min(count, U64_MAX - ino), next_ino advances by nr (le64_add_cpu),
and on commit success the response carries {ino, nr}; on commit failure
the zero-initialized payload is sent with the error.  The commit outcome
is passed in as commitRet. -/
def server_alloc_inodes (super : SuperBlock) (count : Nat) (argLen : Nat) (commitRet : Int) :
    AllocInodesOut :=
  if argLen ≠ 8 then ⟨super, -22, 0, 0⟩
  else
    let ino := super.nextIno
    let nr := min count (U64MAX - ino)
    let super2 := { super with nextIno := (ino + nr) % U64MOD }
    if commitRet = 0 then ⟨super2, 0, ino, nr⟩ else ⟨super2, commitRet, 0, 0⟩

/-! ## GET_ROOTS and the dispatch table (src/kmod/src/server.c) -/

/-- The stable root snapshot handed out by GET_ROOTS, struct
scoutfs_net_roots, with each btree root modelled as an opaque Nat. -/
structure NetRoots where
  fsRoot : Nat
  logsRoot : Nat
  srchRoot : Nat
deriving DecidableEq

/-- The zeroed scoutfs_net_roots payload. -/
def zeroRoots : NetRoots := ⟨0, 0, 0⟩

/-- Result of server_get_roots: response error and payload. -/
structure GetRootsOut where
  err : Int
  roots : NetRoots
deriving DecidableEq

/-- server_get_roots of server.c: on a nonzero payload length the local
ret is set to -EINVAL and the payload zeroed, but the response is sent
with scoutfs_net_response(sb, conn, cmd, id, 0, ...), that is with error
0, so the client receives a success response either way. -/
def server_get_roots (current : NetRoots) (argLen : Nat) : GetRootsOut :=
  if argLen ≠ 0 then ⟨0, zeroRoots⟩ else ⟨0, current⟩

/-- The commands of the server_req_funcs dispatch table of server.c. -/
inductive Cmd where
  | greeting
  | allocInodes
  | getLogTrees
  | commitLogTrees
  | getRoots
  | advanceSeq
  | getLastSeq
  | lock
  | srchGetCompact
  | srchCommitCompact
  | openInoMap
  | getVolopt
  | setVolopt
  | clearVolopt
  | farewell
deriving DecidableEq

/-- The error carried by the response each handler produces for a request
whose payload length differs from the command expected size, read off
each handler in server.c.  For handlers that return the error instead of
sending a response themselves (lock, farewell) the net core emits the
response with the returned error; that part is modelled from the spec
(the dispatcher emits exactly one response per request).  Every handler
answers -EINVAL (-22) except server_get_roots, which sends its response
with error 0. -/
def wrong_len_resp_err : Cmd → Int
  | Cmd.getRoots => 0
  | _ => -22

/-! ## Commit worker (src/kmod/src/server.c) -/

/-- Outcomes of the fallible steps of one run of
scoutfs_server_commit_func, each 0 for success or a negative errno:
the forced-unmount check, scoutfs_alloc_fill_list,
scoutfs_alloc_empty_list, scoutfs_alloc_prepare_commit,
scoutfs_block_writer_write and scoutfs_write_super.  These live in
alloc.c, block.c and super.c paths not under src/ and are modelled from
the spec as environment-chosen step results. -/
structure CommitEnv where
  forcingUnmount : Bool
  fillListRet : Int
  emptyListRet : Int
  prepareRet : Int
  writeRet : Int
  writeSuperRet : Int
deriving DecidableEq

/-- The outcome of a commit batch: -EIO (-5) under forced unmount,
otherwise the error of the first failing step, otherwise 0. -/
def commit_outcome (e : CommitEnv) : Int :=
  if e.forcingUnmount then -5
  else if e.fillListRet ≠ 0 then e.fillListRet
  else if e.emptyListRet ≠ 0 then e.emptyListRet
  else if e.prepareRet ≠ 0 then e.prepareRet
  else if e.writeRet ≠ 0 then e.writeRet
  else if e.writeSuperRet ≠ 0 then e.writeSuperRet
  else 0

/-- The server state that the embedded commit worker updates on success:
the active bank index server->other_ind and the seqcount-published roots
snapshot, with the post-commit super block roots supplied by the
environment. -/
structure CommitState where
  otherInd : Nat
  publishedRoots : NetRoots
  superRoots : NetRoots
deriving DecidableEq

/-- The tail of scoutfs_server_commit_func at the out label: drain all the
commit waiters with llist_del_all and complete every one of them with
cw->ret = ret.  Waiters are identified by opaque ids. -/
def commit_finish (st : CommitState) (ret : Int) (waiters : List Nat) :
    CommitState × Int × List (Nat × Int) :=
  (st, ret, waiters.map (fun w => (w, ret)))

/-- scoutfs_server_commit_func of server.c: under the exclusive commit
rwsem, bail out with -EIO when unmount is forced, then run the refill,
drain, prepare, write-dirty-blocks and write-super steps, jumping to the
out label at the first failure; on success publish the new stable roots
(set_roots) and flip the active bank index.  In every case the out label
completes all drained waiters with the shared result. -/
def scoutfs_server_commit_func (e : CommitEnv) (st : CommitState) (waiters : List Nat) :
    CommitState × Int × List (Nat × Int) :=
  if e.forcingUnmount then commit_finish st (-5) waiters
  else if e.fillListRet ≠ 0 then commit_finish st e.fillListRet waiters
  else if e.emptyListRet ≠ 0 then commit_finish st e.emptyListRet waiters
  else if e.prepareRet ≠ 0 then commit_finish st e.prepareRet waiters
  else if e.writeRet ≠ 0 then commit_finish st e.writeRet waiters
  else if e.writeSuperRet ≠ 0 then commit_finish st e.writeSuperRet waiters
  else
    commit_finish
      { st with publishedRoots := st.superRoots, otherInd := st.otherInd ^^^ 1 }
      0 waiters

/-! ## Farewell worker (src/kmod/src/server.c) -/

/-- A mounted_clients btree item: the rid key and the QUORUM flag of
struct scoutfs_mounted_client_btree_val. -/
structure MountedClient where
  rid : Nat
  quorum : Bool
deriving DecidableEq

/-- A pending farewell request of struct farewell_request: the client rid
and the net id of the request. -/
structure FwReq where
  rid : Nat
  netId : Nat
deriving DecidableEq

/-- One decision of the third farewell loop: the request, whether it was
moved to the send list, and the values of quo_mnts, quo_reqs and
non_mnts when the condition was evaluated. -/
structure Pass3Entry where
  fw : FwReq
  sent : Bool
  quoMnts : Nat
  quoReqs : Nat
  nonMnts : Nat
deriving DecidableEq

/-- First loop of farewell_worker: walk the mounted_clients items and
count the quorum-flagged and non-quorum mounts (unsigned int
counters). -/
def count_mounted : List MountedClient → Nat × Nat
  | [] => (0, 0)
  | mc :: rest =>
    let p := count_mounted rest
    if mc.quorum then (u32inc p.1, p.2) else (p.1, u32inc p.2)

/-- Second loop of farewell_worker: walk the drained requests in order and
look up each mounted client item.  A missing item means the farewell was
already processed, so the request moves to the send list; a non-quorum
item also moves it to the send list and decrements non_mnts; a quorum
item leaves the request held and increments quo_reqs.  Returns the send
list, the held list, and the final quo_reqs and non_mnts counters. -/
def farewell_pass2 (mounted : List MountedClient) :
    List FwReq → Nat → Nat → (List FwReq × List FwReq × Nat × Nat)
  | [], quoReqs, nonMnts => ([], [], quoReqs, nonMnts)
  | fw :: rest, quoReqs, nonMnts =>
    match mounted.find? (fun mc => mc.rid == fw.rid) with
    | none =>
      let out := farewell_pass2 mounted rest quoReqs nonMnts
      (fw :: out.1, out.2.1, out.2.2.1, out.2.2.2)
    | some mc =>
      if mc.quorum then
        let out := farewell_pass2 mounted rest (u32inc quoReqs) nonMnts
        (out.1, fw :: out.2.1, out.2.2.1, out.2.2.2)
      else
        let out := farewell_pass2 mounted rest quoReqs (u32dec nonMnts)
        (fw :: out.1, out.2.1, out.2.2.1, out.2.2.2)

/-- Third loop of farewell_worker: only quorum-member requests remain.  A
request is moved to the send list exactly when quo_mnts exceeds the
quorum votes needed, or quo_reqs equals quo_mnts and non_mnts is zero;
sending decrements quo_mnts and quo_reqs.  Returns the send list, the
requests still held, and the trace of decisions with the counter values
at each evaluation. -/
def farewell_pass3 (votesNeeded : Nat) :
    List FwReq → Nat → Nat → Nat → (List FwReq × List FwReq × List Pass3Entry)
  | [], _, _, _ => ([], [], [])
  | fw :: rest, quoMnts, quoReqs, nonMnts =>
    if votesNeeded < quoMnts ∨ (quoReqs = quoMnts ∧ nonMnts = 0) then
      let out := farewell_pass3 votesNeeded rest (u32dec quoMnts) (u32dec quoReqs) nonMnts
      (fw :: out.1, out.2.1, ⟨fw, true, quoMnts, quoReqs, nonMnts⟩ :: out.2.2)
    else
      let out := farewell_pass3 votesNeeded rest quoMnts quoReqs nonMnts
      (out.1, fw :: out.2.1, ⟨fw, false, quoMnts, quoReqs, nonMnts⟩ :: out.2.2)

/-- farewell_worker of server.c up to the point where the send set is
fixed: count the mounted clients, move the requests with a missing or
non-quorum mounted client item to the send list, then move the remaining
quorum requests under the majority condition (scoutfs_quorum_votes_needed
lives in quorum.c, not under src/, and is passed as votesNeeded).
Returns (send, still-held, decision trace of the third loop). -/
def farewell_worker (mounted : List MountedClient) (reqs : List FwReq) (votesNeeded : Nat) :
    List FwReq × List FwReq × List Pass3Entry :=
  let counts := count_mounted mounted
  let p2 := farewell_pass2 mounted reqs 0 counts.2
  let p3 := farewell_pass3 votesNeeded p2.2.1 counts.1 p2.2.2.1 p2.2.2.2
  (p2.1 ++ p3.1, p3.2.1, p3.2.2)

/-! ## Concrete inputs used by the counterexamples and witnesses -/

/-- A trivial crc model mapping every block to crc 0. -/
def trivialCrc : CrcModel := ⟨fun _ _ _ _ => 0⟩

/-- An empty block-layer state over the trivial crc model. -/
def emptyBlockState : BlockState :=
  { superHdr := ⟨0, 0, 0, 0⟩
    blocks := fun _ => none
    verified := fun _ => false
    dirtyTree := []
    blockWriteErr := 0
    crcM := trivialCrc
    allocSame := fun _ => none
    freedPool := []
    availPool := [] }

/-- A dirty block at blkno 5 (fsid 1, seq 3). -/
def c1Block : ScoutfsBlock := ⟨⟨0, 1, 5, 3⟩, []⟩

/-- A state whose dirty tree holds exactly the block at blkno 5; the
current dirty seq is 7. -/
def c1State : BlockState :=
  { emptyBlockState with
      superHdr := ⟨0, 1, 0, 7⟩
      blocks := fun n => if n = 5 then some c1Block else none
      dirtyTree := [5] }

/-- A stable roots snapshot with distinct root values. -/
def c2Roots : NetRoots := ⟨1, 2, 3⟩

/-- A stable block at blkno 100 with fsid 9, seq 3 and one body byte. -/
def c4Block : ScoutfsBlock := ⟨⟨0, 9, 100, 3⟩, [42]⟩

/-- A state holding c4Block at blkno 100, current dirty seq 7, fsid 9,
whose allocator places a new block right next to the old one. -/
def c4State : BlockState :=
  { emptyBlockState with
      superHdr := ⟨0, 9, 0, 7⟩
      blocks := fun n => if n = 100 then some c4Block else none
      allocSame := fun n => some (n + 1) }

/-- A stale reference to c4Block: seq 3, differing from the dirty seq 7. -/
def c4Ref : ScoutfsBlockRef := ⟨100, 3⟩

/-- A reference to blkno 100 already at the current dirty seq 7. -/
def c4RefCur : ScoutfsBlockRef := ⟨100, 7⟩

/-- A block at blkno 2 whose fsid 1 differs from the super fsid. -/
def c5Block : ScoutfsBlock := ⟨⟨0, 1, 2, 3⟩, []⟩

/-- A state whose super block fsid is zero, holding c5Block at blkno 2. -/
def c5State : BlockState :=
  { emptyBlockState with
      superHdr := ⟨0, 0, 0, 7⟩
      blocks := fun n => if n = 2 then some c5Block else none }

/-- A block at blkno 2 matching fsid 9 with a correct trivial crc. -/
def c5wBlock : ScoutfsBlock := ⟨⟨0, 9, 2, 3⟩, []⟩

/-- A state with nonzero super fsid 9 holding c5wBlock at blkno 2. -/
def c5wState : BlockState :=
  { emptyBlockState with
      superHdr := ⟨0, 9, 0, 7⟩
      blocks := fun n => if n = 2 then some c5wBlock else none }

/-- A super block whose next_ino is one below U64_MAX. -/
def c6Super : SuperBlock := ⟨U64MAX - 1, 0, []⟩

/-- A super block whose next_trans_seq is U64_MAX, about to wrap. -/
def c7Super : SuperBlock := ⟨0, U64MAX, []⟩

/-- A super block holding two trans_seq items for distinct rids. -/
def c7wSuper : SuperBlock := ⟨0, 5, [⟨3, 7⟩, ⟨4, 8⟩]⟩

/-- A super block whose trans_seqs tree holds a live item with seq 0. -/
def c8Super : SuperBlock := ⟨0, 5, [⟨0, 7⟩]⟩

/-- A sorted super block with live items of seq 3 and 4 (both nonzero). -/
def c8wSuper : SuperBlock := ⟨0, 9, [⟨3, 7⟩, ⟨4, 8⟩]⟩

/-- A commit environment in which every step succeeds. -/
def c3EnvOk : CommitEnv := ⟨false, 0, 0, 0, 0, 0⟩

/-- A commit environment whose refill step fails with -ENOMEM. -/
def c3EnvFail : CommitEnv := ⟨false, -12, 0, 0, 0, 0⟩

/-- A commit state with bank index 0 and distinct published and super
roots. -/
def c3State : CommitState := ⟨0, ⟨1, 2, 3⟩, ⟨4, 5, 6⟩⟩

/-- Three quorum mounts (rids 1, 2, 3) and one non-quorum mount (rid 4). -/
def c9Mounted : List MountedClient := [⟨1, true⟩, ⟨2, true⟩, ⟨3, true⟩, ⟨4, false⟩]

/-- Pending farewells from the non-quorum rid 4 and the quorum rid 1. -/
def c9Reqs : List FwReq := [⟨4, 40⟩, ⟨1, 10⟩]

/-! ## Helper lemmas -/

/-- A block header verification returns 0 exactly when the crc matches,
the fsid check passes (vacuously when the super fsid is zero) and the
stored blkno equals the disk address. -/
theorem verify_block_header_zero_iff (st : BlockState) (b : ScoutfsBlock) (dbn : Nat) :
    verify_block_header st b dbn = 0 ↔
      (b.hdr.crc = crcBlockOf st.crcM b ∧
       (st.superHdr.fsid = 0 ∨ b.hdr.fsid = st.superHdr.fsid) ∧
       b.hdr.blkno = dbn) := by
  constructor
  · intro h
    unfold verify_block_header at h
    split_ifs at h with h1 h2 h3
    rw [not_not] at h1 h3
    refine ⟨h1, ?_, h3⟩
    by_cases h0 : st.superHdr.fsid = 0
    · exact Or.inl h0
    · right
      by_contra hne
      exact h2 ⟨h0, hne⟩
  · rintro ⟨h1, h2, h3⟩
    have hn2 : ¬(st.superHdr.fsid ≠ 0 ∧ b.hdr.fsid ≠ st.superHdr.fsid) := by
      rintro ⟨ha, hb2⟩
      rcases h2 with h0 | he
      · exact ha h0
      · exact hb2 he
    unfold verify_block_header
    simp [h1, h3, hn2]

/-- A block header verification returns 0 or -EIO. -/
theorem verify_block_header_cases (st : BlockState) (b : ScoutfsBlock) (dbn : Nat) :
    verify_block_header st b dbn = 0 ∨ verify_block_header st b dbn = -5 := by
  unfold verify_block_header
  split_ifs <;> simp

/-! ## C1: write errors keep blocks dirty but are not returned -/

/-- C1.  On a commit write where the single dirty block at blkno 5 fails
its I/O: the block stays in the dirty tree and -EIO is latched into
sbi->block_write_err (the first half of the claim holds), yet
scoutfs_block_write_dirty returns 0, not an I/O error, because the
latched error is never consulted - contradicting the second half of the
claim. -/
theorem scoutfs_block_write_dirty_err_not_returned :
    (scoutfs_block_write_dirty c1State (fun _ => false)).1.dirtyTree = [5] ∧
    (scoutfs_block_write_dirty c1State (fun _ => false)).1.blockWriteErr = -5 ∧
    (scoutfs_block_write_dirty c1State (fun _ => false)).2 = 0 := by
  decide

/-! ## C2: wrong-length GET_ROOTS is answered with error 0 -/

/-- C2.  A GET_ROOTS request with a one-byte payload is answered with
error 0 and zeroed roots: server_get_roots sets its local ret to -EINVAL
but passes the literal 0 to scoutfs_net_response, so the claimed -EINVAL
error response is never sent (every other command in server_req_funcs
does answer -EINVAL on a wrong-length payload). -/
theorem server_get_roots_badlen_err_zero :
    (server_get_roots c2Roots 1).err = 0 ∧
    (server_get_roots c2Roots 1).err ≠ -22 ∧
    (server_get_roots c2Roots 1).roots = zeroRoots ∧
    wrong_len_resp_err Cmd.getRoots = 0 := by
  decide

/-! ## C5: read verification checks -/

/-- C5 counterexample.  With a super block whose fsid is zero, a block
whose stored fsid (1) differs from the super fsid is still read
successfully and marked verified, because verify_block_header only
enforces the fsid check when the super fsid is nonzero; so a read can
succeed without the stored fsid equalling the super fsid. -/
theorem scoutfs_block_read_fsid_check_skipped :
    (scoutfs_block_read c5State 2).1 = Except.ok c5Block ∧
    (scoutfs_block_read c5State 2).2.verified 2 = true ∧
    c5Block.hdr.fsid ≠ c5State.superHdr.fsid := by
  decide

/-- C5 amended.  A first-use read of the block at blkno succeeds, and the
block becomes verified, exactly when the stored crc equals the computed
crc, the stored blkno equals the disk address, and - whenever the super
fsid is nonzero - the stored fsid equals the super fsid; when any of
these checks fails the read returns -EIO and the block is left
unverified. -/
theorem scoutfs_block_read_verified_iff (st : BlockState) (blkno : Nat) (b : ScoutfsBlock)
    (hb : st.blocks blkno = some b) (hv : st.verified blkno = false) :
    ((scoutfs_block_read st blkno).1 = Except.ok b ↔
      (b.hdr.crc = crcBlockOf st.crcM b ∧
       (st.superHdr.fsid = 0 ∨ b.hdr.fsid = st.superHdr.fsid) ∧
       b.hdr.blkno = blkno)) ∧
    ((scoutfs_block_read st blkno).2.verified blkno = true ↔
      (b.hdr.crc = crcBlockOf st.crcM b ∧
       (st.superHdr.fsid = 0 ∨ b.hdr.fsid = st.superHdr.fsid) ∧
       b.hdr.blkno = blkno)) ∧
    (¬ (b.hdr.crc = crcBlockOf st.crcM b ∧
        (st.superHdr.fsid = 0 ∨ b.hdr.fsid = st.superHdr.fsid) ∧
        b.hdr.blkno = blkno) →
      (scoutfs_block_read st blkno).1 = Except.error (-5)) := by
  have hiff := verify_block_header_zero_iff st b blkno
  by_cases hz : verify_block_header st b blkno = 0
  · have hread : scoutfs_block_read st blkno =
        (Except.ok b,
         { st with verified := fun n => if n = blkno then true else st.verified n }) := by
      simp [scoutfs_block_read, hb, hv, hz]
    refine ⟨?_, ?_, ?_⟩
    · rw [hread]
      exact iff_of_true rfl (hiff.mp hz)
    · rw [hread]
      exact iff_of_true (by simp) (hiff.mp hz)
    · intro hn; exact absurd (hiff.mp hz) hn
  · have hcond : ¬(b.hdr.crc = crcBlockOf st.crcM b ∧
        (st.superHdr.fsid = 0 ∨ b.hdr.fsid = st.superHdr.fsid) ∧
        b.hdr.blkno = blkno) := fun h => hz (hiff.mpr h)
    have he : verify_block_header st b blkno = -5 := by
      rcases verify_block_header_cases st b blkno with h | h
      · exact absurd h hz
      · exact h
    have hread : scoutfs_block_read st blkno =
        (Except.error (verify_block_header st b blkno), st) := by
      simp [scoutfs_block_read, hb, hv, hz]
    refine ⟨?_, ?_, ?_⟩
    · rw [hread]
      exact iff_of_false (fun hc => Except.noConfusion hc) hcond
    · rw [hread]
      exact iff_of_false (by simp [hv]) hcond
    · intro _
      rw [hread, he]

/-- C5 witness.  A concrete first-use read whose three checks all pass:
the read succeeds and the block becomes verified. -/
theorem scoutfs_block_read_verified_iff_witness :
    (scoutfs_block_read c5wState 2).1 = Except.ok c5wBlock ∧
    (scoutfs_block_read c5wState 2).2.verified 2 = true := by
  have h := scoutfs_block_read_verified_iff c5wState 2 c5wBlock (by decide) (by decide)
  exact ⟨h.1.mpr (by decide), h.2.1.mpr (by decide)⟩

/-! ## C3: every commit waiter gets the shared result -/

/-- C3.  One run of the commit worker completes every waiter it drains
with the same shared result, namely the outcome of that commit: the list
of completions is exactly the waiter list paired with commit_outcome,
and commit_outcome is 0 exactly when no step failed (otherwise it is the
error of the first failing step, by definition of commit_outcome). -/
theorem scoutfs_server_commit_func_uniform (e : CommitEnv) (st : CommitState) (ws : List Nat) :
    (scoutfs_server_commit_func e st ws).2.2 = ws.map (fun w => (w, commit_outcome e)) ∧
    (commit_outcome e = 0 ↔
      (e.forcingUnmount = false ∧ e.fillListRet = 0 ∧ e.emptyListRet = 0 ∧
       e.prepareRet = 0 ∧ e.writeRet = 0 ∧ e.writeSuperRet = 0)) := by
  unfold scoutfs_server_commit_func commit_outcome commit_finish
  split_ifs with h1 h2 h3 h4 h5 h6 <;> simp_all

/-! ## C4: dirty_ref behaviour -/

/-- Inserting x with insertSorted always makes x a member. -/
theorem mem_insertSorted (x : Nat) (l : List Nat) : x ∈ insertSorted x l := by
  induction l with
  | nil => simp [insertSorted]
  | cons y ys ih =>
    unfold insertSorted
    split_ifs with hle
    · simp
    · simp [ih]

/-- A read never changes any block-layer state other than the verified
bits. -/
theorem scoutfs_block_read_preserves (st : BlockState) (blkno : Nat) :
    (scoutfs_block_read st blkno).2.superHdr = st.superHdr ∧
    (scoutfs_block_read st blkno).2.blocks = st.blocks ∧
    (scoutfs_block_read st blkno).2.dirtyTree = st.dirtyTree ∧
    (scoutfs_block_read st blkno).2.freedPool = st.freedPool ∧
    (scoutfs_block_read st blkno).2.availPool = st.availPool ∧
    (scoutfs_block_read st blkno).2.allocSame = st.allocSame ∧
    (scoutfs_block_read st blkno).2.crcM = st.crcM := by
  unfold scoutfs_block_read
  cases hbb : st.blocks blkno with
  | none => simp
  | some b =>
    by_cases hv : st.verified blkno
    · simp [hv]
    · by_cases hz : verify_block_header st b blkno = 0
      · simp [hv, hz]
      · simp [hv, hz]

/-- C4.  Behaviour of scoutfs_block_dirty_ref on a reference whose block
reads successfully.  If the reference seq equals the current dirty seq
the read block is returned as-is and neither the state beyond the read
nor the reference is modified.  Otherwise, with the allocator placing
the new block at n near ref.blkno and the block carrying its own seq
ref.seq: the returned block carries the old contents with the header
stamped to blkno n and the current dirty seq, the cache at n holds that
copy, the old block is freed into the current freed pool under its own
seq, n is tracked dirty, and the reference is updated in place to
(n, current seq). -/
theorem scoutfs_block_dirty_ref_spec (st : BlockState) (ref : ScoutfsBlockRef)
    (b : ScoutfsBlock) (n : Nat)
    (hread : (scoutfs_block_read st ref.blkno).1 = Except.ok b) :
    (ref.seq = st.superHdr.seq →
      scoutfs_block_dirty_ref st ref =
        (Except.ok b, (scoutfs_block_read st ref.blkno).2, ref)) ∧
    (ref.seq ≠ st.superHdr.seq → st.allocSame ref.blkno = some n → b.hdr.seq = ref.seq →
      (scoutfs_block_dirty_ref st ref).1 =
        Except.ok ⟨⟨b.hdr.crc, b.hdr.fsid, n, st.superHdr.seq⟩, b.body⟩ ∧
      (scoutfs_block_dirty_ref st ref).2.2 = (⟨n, st.superHdr.seq⟩ : ScoutfsBlockRef) ∧
      (scoutfs_block_dirty_ref st ref).2.1.blocks n =
        some ⟨⟨b.hdr.crc, b.hdr.fsid, n, st.superHdr.seq⟩, b.body⟩ ∧
      (b.hdr.seq, b.hdr.blkno) ∈ (scoutfs_block_dirty_ref st ref).2.1.freedPool ∧
      n ∈ (scoutfs_block_dirty_ref st ref).2.1.dirtyTree) := by
  have hpres := scoutfs_block_read_preserves st ref.blkno
  constructor
  · intro hseq
    simp [scoutfs_block_dirty_ref, hread, hseq]
  · intro hne halloc hbseq
    have hbne : ¬(b.hdr.seq = st.superHdr.seq) := by rw [hbseq]; exact hne
    have hout : scoutfs_block_dirty_ref st ref =
        (Except.ok (⟨⟨b.hdr.crc, b.hdr.fsid, n, st.superHdr.seq⟩, b.body⟩ : ScoutfsBlock),
         { scoutfs_buddy_free (scoutfs_block_dirty (scoutfs_block_read st ref.blkno).2 n).2
             b.hdr.seq b.hdr.blkno with
             blocks := fun m => if m = n then
               some (⟨⟨b.hdr.crc, b.hdr.fsid, n, st.superHdr.seq⟩, b.body⟩ : ScoutfsBlock)
               else (scoutfs_buddy_free
                      (scoutfs_block_dirty (scoutfs_block_read st ref.blkno).2 n).2
                      b.hdr.seq b.hdr.blkno).blocks m },
         (⟨n, st.superHdr.seq⟩ : ScoutfsBlockRef)) := by
      simp [scoutfs_block_dirty_ref, hread, hne, halloc]
    refine ⟨?_, ?_, ?_, ?_, ?_⟩
    · rw [hout]
    · rw [hout]
    · rw [hout]; simp
    · rw [hout]
      simp only [scoutfs_buddy_free, hbne]
      have hsh : (scoutfs_block_dirty (scoutfs_block_read st ref.blkno).2 n).2.superHdr =
          st.superHdr := by
        simp [scoutfs_block_dirty, hpres.1]
      rw [if_neg (by rw [hsh]; exact hbne)]
      simp
    · rw [hout]
      have hdt : (scoutfs_buddy_free
            (scoutfs_block_dirty (scoutfs_block_read st ref.blkno).2 n).2
            b.hdr.seq b.hdr.blkno).dirtyTree =
          (scoutfs_block_dirty (scoutfs_block_read st ref.blkno).2 n).2.dirtyTree := by
        unfold scoutfs_buddy_free
        split_ifs <;> rfl
      show n ∈ (scoutfs_buddy_free
            (scoutfs_block_dirty (scoutfs_block_read st ref.blkno).2 n).2
            b.hdr.seq b.hdr.blkno).dirtyTree
      rw [hdt]
      simp only [scoutfs_block_dirty]
      split_ifs with hmem
      · exact hmem
      · exact mem_insertSorted n _

/-- C4 witness.  On the concrete stale reference (100, 3) with current
dirty seq 7 and allocator choice 101: the reference becomes (101, 7),
the old block is freed as (3, 100), the copy keeps the body, and 101 is
dirty; on the already-dirty-seq reference (100, 7) the read block comes
back with the reference untouched. -/
theorem scoutfs_block_dirty_ref_spec_witness :
    scoutfs_block_dirty_ref c4State c4RefCur =
      (Except.ok c4Block, (scoutfs_block_read c4State 100).2, c4RefCur) ∧
    (scoutfs_block_dirty_ref c4State c4Ref).2.2 = (⟨101, 7⟩ : ScoutfsBlockRef) ∧
    (3, 100) ∈ (scoutfs_block_dirty_ref c4State c4Ref).2.1.freedPool ∧
    101 ∈ (scoutfs_block_dirty_ref c4State c4Ref).2.1.dirtyTree := by
  have h1 := scoutfs_block_dirty_ref_spec c4State c4RefCur c4Block 0 (by decide)
  have h2 := scoutfs_block_dirty_ref_spec c4State c4Ref c4Block 101 (by decide)
  have hc := h2.2 (by decide) (by decide) (by decide)
  exact ⟨h1.1 (by decide), hc.2.1, hc.2.2.2.1, hc.2.2.2.2⟩

/-! ## Trans-seq helpers -/

/-- Membership after the rid-removal loop: exactly the items of a
different rid survive. -/
theorem mem_remove_trans_seq_locked (rid : Nat) (items : List TransSeqItem) (it : TransSeqItem) :
    it ∈ remove_trans_seq_locked rid items ↔ (it ∈ items ∧ it.rid ≠ rid) := by
  induction items with
  | nil => simp [remove_trans_seq_locked]
  | cons x xs ih =>
    unfold remove_trans_seq_locked
    by_cases hx : x.rid = rid
    · rw [if_pos hx]
      constructor
      · intro hm
        have := ih.mp hm
        exact ⟨List.mem_cons_of_mem x this.1, this.2⟩
      · rintro ⟨hm, hne⟩
        rcases List.mem_cons.mp hm with he | hm2
        · exact absurd hx (he ▸ hne)
        · exact ih.mpr ⟨hm2, hne⟩
    · rw [if_neg hx]
      constructor
      · intro hm
        rcases List.mem_cons.mp hm with he | hm2
        · subst he
          exact ⟨List.mem_cons_self it xs, hx⟩
        · have := ih.mp hm2
          exact ⟨List.mem_cons_of_mem x this.1, this.2⟩
      · rintro ⟨hm, hne⟩
        rcases List.mem_cons.mp hm with he | hm2
        · exact he ▸ List.mem_cons_self x _
        · exact List.mem_cons_of_mem x (ih.mpr ⟨hm2, hne⟩)

/-- An insert into the trans_seqs tree whose key is not already present
succeeds and adds exactly that item. -/
theorem btree_insert_trans_seq_ok (it : TransSeqItem) (l : List TransSeqItem)
    (h : ∀ x ∈ l, ¬(x.seq = it.seq ∧ x.rid = it.rid)) :
    ∃ l2, btree_insert_trans_seq it l = Except.ok l2 ∧ ∀ y, (y ∈ l2 ↔ y = it ∨ y ∈ l) := by
  induction l with
  | nil => exact ⟨[it], rfl, by simp⟩
  | cons x xs ih =>
    have hx : ¬(x.seq = it.seq ∧ x.rid = it.rid) := h x (List.mem_cons_self x xs)
    unfold btree_insert_trans_seq
    rw [if_neg hx]
    by_cases hlt : transSeqKeyLt it x
    · rw [if_pos hlt]
      refine ⟨it :: x :: xs, rfl, ?_⟩
      intro y
      simp
    · rw [if_neg hlt]
      obtain ⟨l2, hok, hmem⟩ := ih (fun z hz => h z (List.mem_cons_of_mem x hz))
      rw [hok]
      refine ⟨x :: l2, rfl, ?_⟩
      intro y
      simp only [List.mem_cons, hmem]
      tauto

/-- Decrement by one of a u64 value between 1 and U64_MAX, written as the
wrapping addition of -1ULL. -/
theorem u64_sub_one_mod (n : Nat) (h1 : 1 ≤ n) (h2 : n < U64MOD) :
    (n + U64MAX) % U64MOD = n - 1 := by
  have he : n + U64MAX = (n - 1) + 1 * U64MOD := by
    unfold U64MAX U64MOD
    omega
  rw [he, Nat.add_mul_mod_self_right]
  exact Nat.mod_eq_of_lt (by omega)

/-! ## C10: rid removal is exact, other rids are untouched -/

/-- C10.  The trans-seq removal deletes exactly the items of the given
rid: an item survives the loop precisely when it was present and carries
a different rid, for any tree contents; and remove_trans_seq, the entry
used by farewell and reclaim processing, performs the same removal as
remove_trans_seq_locked used by ADVANCE_SEQ. -/
theorem remove_trans_seq_rid_frame (rid : Nat) (items : List TransSeqItem) (it : TransSeqItem) :
    (it ∈ remove_trans_seq_locked rid items ↔ (it ∈ items ∧ it.rid ≠ rid)) ∧
    remove_trans_seq rid items = remove_trans_seq_locked rid items :=
  ⟨mem_remove_trans_seq_locked rid items it, rfl⟩

/-! ## C7: ADVANCE_SEQ -/

/-- C7 counterexample.  With next_trans_seq = U64_MAX, ADVANCE_SEQ wraps
next_trans_seq to 0 (le64_add_cpu is u64 addition), so the new value is
not s + 1 as the claim states. -/
theorem server_advance_seq_wraps :
    (server_advance_seq c7Super 7 0 0).super.nextTransSeq = 0 ∧
    (server_advance_seq c7Super 7 0 0).leseq = U64MAX ∧
    (server_advance_seq c7Super 7 0 0).super.nextTransSeq ≠ U64MAX + 1 := by
  decide

/-- C7 amended.  For a zero-length ADVANCE_SEQ request from rid in a
state with next_trans_seq = s, committed successfully: every trans-seq
item of rid is removed, the single item (s, rid) is inserted (and
nothing else changes membership), next_trans_seq becomes (s + 1) mod
2^64 - which is s + 1 whenever s < U64_MAX - and the response carries
seq = s with no error. -/
theorem server_advance_seq_spec (super : SuperBlock) (rid : Nat) :
    (server_advance_seq super rid 0 0).err = 0 ∧
    (server_advance_seq super rid 0 0).leseq = super.nextTransSeq ∧
    (server_advance_seq super rid 0 0).super.nextTransSeq =
      (super.nextTransSeq + 1) % U64MOD ∧
    (∀ it : TransSeqItem,
      it ∈ (server_advance_seq super rid 0 0).super.transSeqs ↔
        (it = ⟨super.nextTransSeq, rid⟩ ∨ (it ∈ super.transSeqs ∧ it.rid ≠ rid))) := by
  have hfresh : ∀ x ∈ remove_trans_seq_locked rid super.transSeqs,
      ¬(x.seq = (⟨super.nextTransSeq, rid⟩ : TransSeqItem).seq ∧
        x.rid = (⟨super.nextTransSeq, rid⟩ : TransSeqItem).rid) := by
    intro x hx hc
    exact ((mem_remove_trans_seq_locked rid super.transSeqs x).mp hx).2 hc.2
  obtain ⟨l2, hok, hmem⟩ :=
    btree_insert_trans_seq_ok ⟨super.nextTransSeq, rid⟩
      (remove_trans_seq_locked rid super.transSeqs) hfresh
  have hout : server_advance_seq super rid 0 0 =
      ⟨{ super with nextTransSeq := (super.nextTransSeq + 1) % U64MOD, transSeqs := l2 },
       0, super.nextTransSeq⟩ := by
    simp [server_advance_seq, hok]
  refine ⟨by rw [hout], by rw [hout], by rw [hout], ?_⟩
  intro it
  rw [hout]
  show it ∈ l2 ↔ _
  rw [hmem it, mem_remove_trans_seq_locked]

/-! ## C8: GET_LAST_SEQ -/

/-- C8 counterexample.  With a live trans-seq item of seq 0, GET_LAST_SEQ
answers U64_MAX (the u64 decrement of 0 wraps), which is not the
smallest seq minus one and is not strictly below the live seq 0. -/
theorem server_get_last_seq_wraps :
    (server_get_last_seq c8Super 0).lastSeq = U64MAX ∧
    (⟨0, 7⟩ : TransSeqItem) ∈ c8Super.transSeqs ∧
    ¬((server_get_last_seq c8Super 0).lastSeq < (⟨0, 7⟩ : TransSeqItem).seq) ∧
    (server_get_last_seq c8Super 0).lastSeq ≠ 0 := by
  decide

/-- C8 amended.  For a zero-length GET_LAST_SEQ request over a trans_seqs
tree in btree order whose live seqs are nonzero u64 values (and
next_trans_seq a u64): the response is the u64 decrement of
next_trans_seq when the tree is empty, and the smallest live seq minus
one when it is not, which is strictly below every live seq. -/
theorem server_get_last_seq_spec (super : SuperBlock)
    (hs : transSeqSorted super.transSeqs)
    (hpos : ∀ it ∈ super.transSeqs, 1 ≤ it.seq ∧ it.seq < U64MOD) :
    (server_get_last_seq super 0).err = 0 ∧
    (super.transSeqs = [] →
      (server_get_last_seq super 0).lastSeq = (super.nextTransSeq + U64MAX) % U64MOD) ∧
    (∀ x t, super.transSeqs = x :: t → (server_get_last_seq super 0).lastSeq = x.seq - 1) ∧
    (∀ it ∈ super.transSeqs, (server_get_last_seq super 0).lastSeq < it.seq) := by
  cases hc : super.transSeqs with
  | nil =>
    refine ⟨by simp [server_get_last_seq, hc], by intro _; simp [server_get_last_seq, hc], ?_, ?_⟩
    · intro x t hxt
      exact absurd hxt (by simp)
    · intro it hit
      simp at hit
  | cons hd tl =>
    have hhd := hpos hd (by rw [hc]; exact List.mem_cons_self hd tl)
    have hls : (server_get_last_seq super 0).lastSeq = hd.seq - 1 := by
      simp only [server_get_last_seq, hc]
      norm_num
      exact u64_sub_one_mod hd.seq hhd.1 hhd.2
    refine ⟨by simp [server_get_last_seq, hc], ?_, ?_, ?_⟩
    · intro he
      exact absurd he (by simp)
    · intro x t hxt
      injection hxt with e1 e2
      rw [hls, e1]
    · intro it hit
      rw [hc] at hs
      rw [hls]
      rcases List.mem_cons.mp hit with he | hm
      · rw [he]
        omega
      · have hrel := (List.pairwise_cons.mp hs).1 it hm
        have : hd.seq ≤ it.seq := by
          rcases hrel with hlt | ⟨heq, -⟩
          · exact Nat.le_of_lt hlt
          · exact Nat.le_of_eq heq
        omega

/-- C8 witness.  On the sorted tree with live seqs 3 and 4 and
next_trans_seq 9, GET_LAST_SEQ answers 2, which is below the live seq
3. -/
theorem server_get_last_seq_spec_witness :
    (server_get_last_seq c8wSuper 0).lastSeq = 2 ∧
    (server_get_last_seq c8wSuper 0).lastSeq < 3 := by
  have h := server_get_last_seq_spec c8wSuper (by decide) (by decide)
  have h2 := h.2.2.1 ⟨3, 7⟩ [⟨4, 8⟩] rfl
  have h3 := h.2.2.2 ⟨3, 7⟩ (by decide)
  exact ⟨h2, h3⟩

/-! ## C6: ALLOC_INODES saturation -/

/-- C6.  An 8-byte ALLOC_INODES(count) request at next_ino = i, committed
successfully, reserves nr = min(count, U64_MAX - i), advances next_ino
to i + nr (no u64 wrap occurs since i + nr is at most U64_MAX), and
responds {ino = i, nr}; when i + count would exceed U64_MAX the new
next_ino saturates at U64_MAX, and at i = U64_MAX the count nr is 0. -/
theorem server_alloc_inodes_spec (super : SuperBlock) (count : Nat)
    (h1 : super.nextIno < U64MOD) (h2 : count < U64MOD) :
    (server_alloc_inodes super count 8 0).err = 0 ∧
    (server_alloc_inodes super count 8 0).ino = super.nextIno ∧
    (server_alloc_inodes super count 8 0).nr = min count (U64MAX - super.nextIno) ∧
    (server_alloc_inodes super count 8 0).super.nextIno =
      super.nextIno + min count (U64MAX - super.nextIno) ∧
    (U64MAX < super.nextIno + count →
      (server_alloc_inodes super count 8 0).super.nextIno = U64MAX) ∧
    (super.nextIno = U64MAX → (server_alloc_inodes super count 8 0).nr = 0) := by
  have hle : super.nextIno ≤ U64MAX := by
    unfold U64MAX
    unfold U64MOD at h1
    omega
  have hsum : super.nextIno + min count (U64MAX - super.nextIno) < U64MOD := by
    have := Nat.min_le_right count (U64MAX - super.nextIno)
    unfold U64MAX at *
    unfold U64MOD at *
    omega
  have hout : server_alloc_inodes super count 8 0 =
      ⟨{ super with nextIno := super.nextIno + min count (U64MAX - super.nextIno) },
       0, super.nextIno, min count (U64MAX - super.nextIno)⟩ := by
    simp [server_alloc_inodes, Nat.mod_eq_of_lt hsum]
  refine ⟨by rw [hout], by rw [hout], by rw [hout], by rw [hout], ?_, ?_⟩
  · intro hover
    rw [hout]
    show super.nextIno + min count (U64MAX - super.nextIno) = U64MAX
    have : min count (U64MAX - super.nextIno) = U64MAX - super.nextIno := by
      apply Nat.min_eq_right
      omega
    omega
  · intro heq
    rw [hout]
    show min count (U64MAX - super.nextIno) = 0
    rw [heq]
    simp

/-- C6 witness.  At next_ino = U64_MAX - 1 a request for 5 inodes is
clamped to nr = 1 and next_ino saturates at U64_MAX. -/
theorem server_alloc_inodes_spec_witness :
    (server_alloc_inodes c6Super 5 8 0).nr = 1 ∧
    (server_alloc_inodes c6Super 5 8 0).super.nextIno = U64MAX ∧
    (server_alloc_inodes c6Super 5 8 0).ino = U64MAX - 1 := by
  have h := server_alloc_inodes_spec c6Super 5 (by decide) (by decide)
  refine ⟨?_, ?_, ?_⟩
  · rw [h.2.2.1]
    decide
  · apply h.2.2.2.2.1
    decide
  · rw [h.2.1]
    decide

/-! ## C9: farewell send policy -/

/-- A request whose mounted client item is missing or non-quorum is moved
to the send list by the second farewell loop. -/
theorem farewell_pass2_sends (mounted : List MountedClient) (l : List FwReq)
    (q n : Nat) (fw : FwReq) (hmem : fw ∈ l)
    (hcase : mounted.find? (fun mc => mc.rid == fw.rid) = none ∨
      ∃ mc, mounted.find? (fun mc2 => mc2.rid == fw.rid) = some mc ∧ mc.quorum = false) :
    fw ∈ (farewell_pass2 mounted l q n).1 := by
  induction l generalizing q n with
  | nil => cases hmem
  | cons x xs ih =>
    rcases List.mem_cons.mp hmem with he | hm
    · subst he
      unfold farewell_pass2
      rcases hcase with hnone | ⟨mc, hsome, hq⟩
      · rw [hnone]
        exact List.mem_cons_self _ _
      · rw [hsome]
        simp only [hq, Bool.false_eq_true, if_false]
        exact List.mem_cons_self _ _
    · unfold farewell_pass2
      cases hf : mounted.find? (fun mc => mc.rid == x.rid) with
      | none =>
        exact List.mem_cons_of_mem x (ih _ _ hm)
      | some mc2 =>
        by_cases hq2 : mc2.quorum
        · simp only [hq2, if_true]
          exact ih _ _ hm
        · simp only [hq2, Bool.false_eq_true, if_false]
          exact List.mem_cons_of_mem x (ih _ _ hm)

/-- A request whose mounted client item carries the quorum flag is never
moved to the send list by the second farewell loop. -/
theorem farewell_pass2_send_no_quorum (mounted : List MountedClient) (l : List FwReq)
    (q n : Nat) (fw : FwReq) (mc : MountedClient)
    (hsome : mounted.find? (fun mc2 => mc2.rid == fw.rid) = some mc)
    (hq : mc.quorum = true) :
    fw ∉ (farewell_pass2 mounted l q n).1 := by
  induction l generalizing q n with
  | nil => simp [farewell_pass2]
  | cons x xs ih =>
    unfold farewell_pass2
    cases hf : mounted.find? (fun mc2 => mc2.rid == x.rid) with
    | none =>
      intro hmem
      rcases List.mem_cons.mp hmem with he | hm
      · subst he
        rw [hsome] at hf
        cases hf
      · exact ih _ _ hm
    | some mc2 =>
      by_cases hq2 : mc2.quorum
      · simp only [hq2, if_true]
        exact ih _ _
      · simp only [hq2, Bool.false_eq_true, if_false]
        intro hmem
        rcases List.mem_cons.mp hmem with he | hm
        · subst he
          rw [hsome] at hf
          injection hf with he2
          rw [he2] at hq
          rw [hq] at hq2
          exact hq2 rfl
        · exact ih _ _ hm

/-- Every request the third farewell loop moves to the send list has a
true decision entry in the trace whose recorded counters satisfy the
majority condition. -/
theorem farewell_pass3_send_cond (votesNeeded : Nat) (l : List FwReq)
    (qm qr nm : Nat) (fw : FwReq)
    (hmem : fw ∈ (farewell_pass3 votesNeeded l qm qr nm).1) :
    ∃ a b c, (⟨fw, true, a, b, c⟩ : Pass3Entry) ∈
        (farewell_pass3 votesNeeded l qm qr nm).2.2 ∧
      (votesNeeded < a ∨ (b = a ∧ c = 0)) := by
  induction l generalizing qm qr nm with
  | nil => simp [farewell_pass3] at hmem
  | cons x xs ih =>
    unfold farewell_pass3 at hmem ⊢
    by_cases hcond : votesNeeded < qm ∨ (qr = qm ∧ nm = 0)
    · rw [if_pos hcond] at hmem ⊢
      rcases List.mem_cons.mp hmem with he | hm
      · subst he
        exact ⟨qm, qr, nm, List.mem_cons_self _ _, hcond⟩
      · obtain ⟨a, b, c, hin, hcnd⟩ := ih _ _ _ hm
        exact ⟨a, b, c, List.mem_cons_of_mem _ hin, hcnd⟩
    · rw [if_neg hcond] at hmem ⊢
      obtain ⟨a, b, c, hin, hcnd⟩ := ih _ _ _ hmem
      exact ⟨a, b, c, List.mem_cons_of_mem _ hin, hcnd⟩

/-- C9.  Farewell send policy of one worker pass.  A farewell whose
mounted-client record is gone, and a farewell from a client without the
quorum flag, is always moved to the send set.  A farewell from a
quorum-flagged client reaches the send set only through the third loop,
which records its decision in the trace: there exist counter values
quo_mnts, quo_reqs, non_mnts at its evaluation with either quo_mnts
above the votes-needed threshold, or quo_reqs equal to quo_mnts with no
non-quorum mounts remaining. -/
theorem farewell_worker_send_policy (mounted : List MountedClient) (reqs : List FwReq)
    (votesNeeded : Nat) (fw : FwReq) :
    (fw ∈ reqs → mounted.find? (fun mc => mc.rid == fw.rid) = none →
      fw ∈ (farewell_worker mounted reqs votesNeeded).1) ∧
    (∀ mc : MountedClient, fw ∈ reqs →
      mounted.find? (fun mc2 => mc2.rid == fw.rid) = some mc → mc.quorum = false →
      fw ∈ (farewell_worker mounted reqs votesNeeded).1) ∧
    (∀ mc : MountedClient, fw ∈ (farewell_worker mounted reqs votesNeeded).1 →
      mounted.find? (fun mc2 => mc2.rid == fw.rid) = some mc → mc.quorum = true →
      ∃ a b c, (⟨fw, true, a, b, c⟩ : Pass3Entry) ∈
          (farewell_worker mounted reqs votesNeeded).2.2 ∧
        (votesNeeded < a ∨ (b = a ∧ c = 0))) := by
  refine ⟨?_, ?_, ?_⟩
  · intro hmem hnone
    exact List.mem_append_left _ (farewell_pass2_sends mounted reqs _ _ fw hmem (Or.inl hnone))
  · intro mc hmem hsome hq
    exact List.mem_append_left _
      (farewell_pass2_sends mounted reqs _ _ fw hmem (Or.inr ⟨mc, hsome, hq⟩))
  · intro mc hmem hsome hq
    rcases List.mem_append.mp hmem with h2 | h3
    · exact absurd h2 (farewell_pass2_send_no_quorum mounted reqs _ _ fw mc hsome hq)
    · exact farewell_pass3_send_cond votesNeeded _ _ _ _ fw h3

/-- C9 witness.  With three quorum mounts, one non-quorum mount and a
majority threshold of 2: the non-quorum farewell (rid 4) is sent at
once, and the quorum farewell (rid 1) is sent with a trace entry whose
counters satisfy the majority condition. -/
theorem farewell_worker_send_policy_witness :
    (⟨4, 40⟩ : FwReq) ∈ (farewell_worker c9Mounted c9Reqs 2).1 ∧
    (∃ a b c, (⟨⟨1, 10⟩, true, a, b, c⟩ : Pass3Entry) ∈
        (farewell_worker c9Mounted c9Reqs 2).2.2 ∧
      (2 < a ∨ (b = a ∧ c = 0))) := by
  have h4 := (farewell_worker_send_policy c9Mounted c9Reqs 2 ⟨4, 40⟩).2.1
    ⟨4, false⟩ (by decide) (by decide) (by decide)
  have h1 := (farewell_worker_send_policy c9Mounted c9Reqs 2 ⟨1, 10⟩).2.2
    ⟨1, true⟩ (by decide) (by decide) (by decide)
  exact ⟨h4, h1⟩
